import Mathlib

/-!
Verification of the TinyML signal-buffering and debounce pipeline
(`tinyml.py`) against its natural-language specification.

The embedding is shallow: each Python method is translated into a Lean
function over explicit state.  Sensor scalars are modelled as rationals,
timestamps as naturals (monotonic tick counts), classifier labels as
integers.  Python exceptions are modelled with `Except`/`Option`.
-/

namespace TinyMLSpec

/-- State of a `TinyML` instance: `__init__(freq, n_signals)` sets
`n_signals`, `capacity = freq * n_signals`, an empty `buffer` and an
empty `inference_tuples` log. -/
structure TinyML where
  n_signals : Nat
  capacity : Nat
  buffer : List ℚ
  inference_tuples : List (Nat × Int)
deriving DecidableEq, Repr

/-- `TinyML.__init__`: `capacity = freq * n_signals`, empty buffer and log. -/
def init (freq n_signals : Nat) : TinyML :=
  ⟨n_signals, freq * n_signals, [], []⟩

/-- `TinyML.is_full`: `len(self.buffer) > self.capacity`.  Note the source
docstring says the check should be against `capacity - n_signals`
("number of signals must be subtracted as new values will be added after
check"), but the code compares against `capacity` alone. -/
def is_full (s : TinyML) : Bool := s.capacity < s.buffer.length

/-- The `while self.is_full(): self.buffer.pop(0)` loop of `TinyML.collect`,
extracted over `(capacity, buffer)`: pop the oldest scalar while the length
strictly exceeds `capacity`. -/
def evict (cap : Nat) : List ℚ → List ℚ
  | [] => []
  | x :: xs => if cap < xs.length + 1 then evict cap xs else x :: xs

/-- `TinyML.collect(acc, gyro)`: evict while full, then `extend` the buffer
with `acc` and `gyro`.  Python's `if acc:` / `if gyro:` truthiness is
modelled by the `isEmpty` tests (the default `None` is modelled as `[]`,
which is equally falsy and equally a skipped extend). -/
def collect (s : TinyML) (acc gyro : List ℚ) : TinyML :=
  let b0 := evict s.capacity s.buffer
  let b1 := if acc.isEmpty then b0 else b0 ++ acc
  let b2 := if gyro.isEmpty then b1 else b1 ++ gyro
  ⟨s.n_signals, s.capacity, b2, s.inference_tuples⟩

/-- The eviction check that `is_full`'s own docstring describes
("True if buffer is larger than capacity - # of signals"): the loop pops
while `len(buffer) > capacity - n_signals`.  Used to show the claims that
the literal code violates are exactly what the documented intent
satisfies. -/
def evict_intended (cap n : Nat) : List ℚ → List ℚ
  | [] => []
  | x :: xs => if cap - n < xs.length + 1 then evict_intended cap n xs else x :: xs

/-- `TinyML.collect` as it would behave with the docstring-intended
`is_full` check (`len > capacity - n_signals`). -/
def collect_intended (s : TinyML) (acc gyro : List ℚ) : TinyML :=
  let b0 := evict_intended s.capacity s.n_signals s.buffer
  let b1 := if acc.isEmpty then b0 else b0 ++ acc
  let b2 := if gyro.isEmpty then b1 else b1 ++ gyro
  ⟨s.n_signals, s.capacity, b2, s.inference_tuples⟩

/-- Closed form of the eviction loop: it drops exactly
`length - capacity` oldest scalars. -/
lemma evict_eq_drop (cap : Nat) : ∀ b : List ℚ, evict cap b = b.drop (b.length - cap) := by
  intro b
  induction b with
  | nil => simp [evict]
  | cons x xs ih =>
    by_cases h : cap < xs.length + 1
    · have h1 : (x :: xs).length - cap = (xs.length - cap) + 1 := by
        simp only [List.length_cons]; omega
      simp only [evict, if_pos h, ih, h1, List.drop_succ_cons]
    · have h1 : xs.length + 1 - cap = 0 := by omega
      simp [evict, if_neg h, h1]

/-- Four `collect` calls of one 5-scalar group each (3 acceleration +
2 gyro scalars, as in `_main.py`), from an empty buffer with
`capacity = 3 * 5 = 15`. -/
def fourCollects : TinyML :=
  collect (collect (collect (collect (init 3 5) [1, 2, 3] [4, 5])
    [6, 7, 8] [9, 10]) [11, 12, 13] [14, 15]) [16, 17, 18] [19, 20]

/-- Claim C1 (code_bug evaluation): with capacity 15 and 5-scalar groups,
the fourth `collect` leaves the buffer at 20 = capacity + n_signals
scalars, exceeding the claimed bound capacity + channels_per_cycle - 1 = 19.
The code's `is_full` compares against `capacity` although its docstring
says `capacity - n_signals`; with the documented check the size would stay
at most `capacity` and the claimed bound would hold.  (Sizes are list
lengths, hence never negative.) -/
theorem c1_buffer_exceeds_bound :
    fourCollects.buffer.length = 20 ∧ ¬ (fourCollects.buffer.length ≤ 15 + 5 - 1) := by
  decide

/-- The first three collects of the capacity-15 scenario. -/
def threeCollects : TinyML :=
  collect (collect (collect (init 3 5) [1, 2, 3] [4, 5]) [6, 7, 8] [9, 10])
    [11, 12, 13] [14, 15]

/-- Same three collects under the docstring-intended eviction check. -/
def threeCollectsIntended : TinyML :=
  collect_intended (collect_intended (collect_intended (init 3 5) [1, 2, 3] [4, 5])
    [6, 7, 8] [9, 10]) [11, 12, 13] [14, 15]

/-- Claim C2 (code_bug evaluation): after three collects the buffer holds
exactly 15 scalars, but the fourth `collect` of the literal code evicts
nothing (15 is not strictly greater than 15) and appends its 5 scalars,
leaving 20 — not 15 as claimed.  Under the eviction check described by
`is_full`'s own docstring, the fourth collect evicts exactly the 5 oldest
scalars and leaves exactly 15, as the claim states. -/
theorem c2_fourth_collect_sizes :
    threeCollects.buffer.length = 15 ∧
    (collect threeCollects [16, 17, 18] [19, 20]).buffer =
      threeCollects.buffer ++ [16, 17, 18] ++ [19, 20] ∧
    (collect threeCollects [16, 17, 18] [19, 20]).buffer.length = 20 ∧
    threeCollectsIntended.buffer.length = 15 ∧
    (collect_intended threeCollectsIntended [16, 17, 18] [19, 20]).buffer =
      threeCollectsIntended.buffer.drop 5 ++ [16, 17, 18] ++ [19, 20] ∧
    (collect_intended threeCollectsIntended [16, 17, 18] [19, 20]).buffer.length = 15 := by
  decide

/-- Claim C8 (counterexample): `collect` with an empty group is not a
no-op on every buffer state.  With capacity 1 and buffer `[5, 6]`, a
collect with no scalars still runs the eviction loop and pops the oldest
scalar. -/
theorem c8_empty_collect_not_noop :
    (collect ⟨1, 1, [5, 6], []⟩ [] []).buffer = [6] ∧
    ((6 : ℚ) :: []) ≠ [5, 6] := by
  decide

/-- Claim C8 (amended): a `collect` with an empty group appends nothing
but still evicts: it drops the `length - capacity` oldest scalars, and is
a no-op exactly on the states whose buffer does not strictly exceed
capacity. -/
theorem c8_empty_collect_evicts (s : TinyML) :
    (s.buffer.length ≤ s.capacity → collect s [] [] = s) ∧
    (collect s [] []).buffer = s.buffer.drop (s.buffer.length - s.capacity) := by
  constructor
  · intro h
    have h0 : s.buffer.length - s.capacity = 0 := by omega
    cases s with
    | mk n cap buf tuples =>
      simp [collect, evict_eq_drop] at h0 ⊢
      simp [h0]
  · simp [collect, evict_eq_drop]

/-- Witness for C8's amended theorem at a concrete state. -/
theorem c8_empty_collect_evicts_witness :
    collect ⟨5, 15, [1, 2, 3], []⟩ [] [] = ⟨5, 15, [1, 2, 3], []⟩ :=
  (c8_empty_collect_evicts ⟨5, 15, [1, 2, 3], []⟩).1 (by decide)

/-! ## Debounce machinery (`TinyML_Utils`) -/

/-- The MicroPython tick period: `utime.ticks_ms` counts modulo `2 ^ 30`. -/
def TICKS_PERIOD : Int := 2 ^ 30

/-- `utime.ticks_diff(new, old)` per the MicroPython semantics the code
relies on: the signed value congruent to `new - old` modulo
`TICKS_PERIOD`, reduced into `[-TICKS_PERIOD/2, TICKS_PERIOD/2)`. -/
def ticks_diff (new old : Int) : Int :=
  (new - old + TICKS_PERIOD / 2) % TICKS_PERIOD - TICKS_PERIOD / 2

/-- `TinyML_Utils.get_time_diff`: with at least two inference tuples,
`utime.ticks_diff(tuples[-1][0], tuples[0][0])`; otherwise 0. -/
def get_time_diff (inference_tuples : List (Nat × Int)) : Int :=
  if 2 ≤ inference_tuples.length then
    ticks_diff ((inference_tuples.getLast?.getD (0, 0)).1 : Int)
      ((inference_tuples.head?.getD (0, 0)).1 : Int)
  else 0

/-- Python's `set(infs)` as iterated by `max`: a hash table keyed by
`hash(label)`, which for the small non-negative integer labels this
program stores (classifier labels, a subset of `{1, 2, 3}`) is the label
itself, so iteration visits the distinct labels in ascending numeric
order.  Modelled as the deduplicated list sorted ascending. -/
def set_asc (l : List Int) : List Int := List.insertionSort (· ≤ ·) l.dedup

/-- Python's `max(iterable, key=k)`: scans left to right keeping the
current maximum, replacing it only on a strictly greater key, so among
equal keys the earliest element wins; raises (here: `none`) on an empty
iterable. -/
def max_key (k : Int → Nat) : List Int → Option Int
  | [] => none
  | x :: xs => some (xs.foldl (fun b a => if k b < k a then a else b) x)

/-- `TinyML_Utils.get_final_inf_res`: `max(set(infs), key=infs.count)`. -/
def get_final_inf_res (infs : List Int) : Option Int :=
  max_key (fun v => infs.count v) (set_asc infs)

/-- `TinyML_Utils.reduce_infs`: the labels of the first `min_tuples`
inference tuples. -/
def reduce_infs (inference_tuples : List (Nat × Int)) (min_tuples : Nat) : List Int :=
  (inference_tuples.take min_tuples).map (fun x => x.2)

/-- `TinyML_Utils.debounce`: if at least `min_tuples` tuples were
collected and `time_diff > min_t_diff`, the most frequent label of the
first `min_tuples` tuples; otherwise `None`. -/
def debounce (inference_tuples : List (Nat × Int)) (time_diff : Int)
    (min_tuples : Nat) (min_t_diff : Int) : Option Int :=
  if min_tuples ≤ inference_tuples.length ∧ min_t_diff < time_diff then
    get_final_inf_res (reduce_infs inference_tuples min_tuples)
  else none

/-- `TinyML_Utils.clean_inf_tuples`: clear the log when it holds at most
`max_tuples` tuples and `time_diff >= max_t_diff`; otherwise return it
unchanged. -/
def clean_inf_tuples (inference_tuples : List (Nat × Int)) (time_diff : Int)
    (max_tuples : Nat) (max_t_diff : Int) : List (Nat × Int) :=
  if inference_tuples.length ≤ max_tuples ∧ max_t_diff ≤ time_diff then []
  else inference_tuples

/-! ## Config and `score` -/

/-- The class-level `TinyML.__Config_` record of four tunables. -/
structure Config where
  TIME_DIFF : Int
  MIN_INF_TUPLES : Nat
  CLEAN_MAX_TUPLES : Nat
  CLEAN_MAX_TIME_DIFF : Int
deriving DecidableEq, Repr

/-- The values of `TinyML.__Config_` at class-definition time:
`TIME_DIFF=450`, `MIN_INF_TUPLES=9`, `CLEAN_MAX_TUPLES=9`,
`CLEAN_MAX_TIME_DIFF=2000`.  Python evaluates `update_config`'s default
arguments once, at function definition, against exactly these values. -/
def configDefaults : Config := ⟨450, 9, 9, 2000⟩

set_option linter.unusedVariables false in
/-- `TinyML.update_config`: every call assigns all four class attributes,
each either to the passed argument (`some v`) or to the class-definition
time default captured in the function's default arguments (`none`,
i.e. the argument was omitted).  The prior live config is the state being
overwritten; the assigned values never depend on it. -/
def update_config (time_diff : Option Int) (min_inf_tuples : Option Nat)
    (clean_max_tuples : Option Nat) (clean_max_time_diff : Option Int)
    (prior : Config) : Config :=
  ⟨time_diff.getD configDefaults.TIME_DIFF,
    min_inf_tuples.getD configDefaults.MIN_INF_TUPLES,
    clean_max_tuples.getD configDefaults.CLEAN_MAX_TUPLES,
    clean_max_time_diff.getD configDefaults.CLEAN_MAX_TIME_DIFF⟩

/-- The classifier-recording step of `TinyML.score`: when the buffer
length equals the capacity exactly, run the classifier; if its label is
in `[1, 2, 3]`, append `(now, label)` to the inference log. -/
def record_inference (classify : List ℚ → Int) (now : Nat) (cap : Nat)
    (buffer : List ℚ) (inference_tuples : List (Nat × Int)) : List (Nat × Int) :=
  if buffer.length = cap then
    if classify buffer ∈ ([1, 2, 3] : List Int) then
      inference_tuples ++ [(now, classify buffer)]
    else inference_tuples
  else inference_tuples

/-- `TinyML.score`: record a classification when the buffer is exactly
full, compute `time_diff`, debounce, clear the log when a truthy result
was produced (Python `if result:`), then run the cleanup step; returns
the debounce result and the updated state. -/
def score (classify : List ℚ → Int) (cfg : Config) (now : Nat) (s : TinyML) :
    Option Int × TinyML :=
  let t1 := record_inference classify now s.capacity s.buffer s.inference_tuples
  let time_diff := get_time_diff t1
  let result := debounce t1 time_diff cfg.MIN_INF_TUPLES cfg.TIME_DIFF
  let t2 := match result with
    | some r => if r ≠ 0 then [] else t1
    | none => t1
  let t3 := clean_inf_tuples t2 time_diff cfg.CLEAN_MAX_TUPLES cfg.CLEAN_MAX_TIME_DIFF
  (result, ⟨s.n_signals, s.capacity, s.buffer, t3⟩)

/-! ## Properties of the majority vote -/

/-- The left-to-right strict-replacement fold underlying `max_key`, on a
list sorted ascending: the result is an element of the list, its key is
maximal, and among elements with the maximal key it is the least. -/
lemma foldl_pick_spec (k : Int → Nat) :
    ∀ (l : List Int) (x : Int), (x :: l).Pairwise (· ≤ ·) →
      (l.foldl (fun b a => if k b < k a then a else b) x) ∈ x :: l ∧
      (∀ y ∈ x :: l, k y ≤ k (l.foldl (fun b a => if k b < k a then a else b) x)) ∧
      (∀ y ∈ x :: l, k y = k (l.foldl (fun b a => if k b < k a then a else b) x) →
        (l.foldl (fun b a => if k b < k a then a else b) x) ≤ y) := by
  intro l
  induction l with
  | nil =>
    intro x _
    refine ⟨List.mem_singleton_self x, ?_, ?_⟩
    · intro y hy; rw [List.mem_singleton] at hy; subst hy; exact le_refl _
    · intro y hy _; rw [List.mem_singleton] at hy; subst hy; exact le_refl _
  | cons a l ih =>
    intro x hp
    obtain ⟨hx, hal⟩ := List.pairwise_cons.mp hp
    have hxa : x ≤ a := hx a (List.mem_cons_self a l)
    obtain ⟨ha, hl⟩ := List.pairwise_cons.mp hal
    rw [List.foldl_cons]
    by_cases hk : k x < k a
    · -- the accumulator becomes `a`
      rw [if_pos hk]
      obtain ⟨hmem, hmax, htie⟩ := ih a hal
      have hka : k a ≤ k (l.foldl (fun b c => if k b < k c then c else b) a) :=
        hmax a (List.mem_cons_self a l)
      refine ⟨?_, ?_, ?_⟩
      · rcases List.mem_cons.mp hmem with h1 | h1
        · rw [h1]; exact List.mem_cons_of_mem x (List.mem_cons_self a l)
        · exact List.mem_cons_of_mem x (List.mem_cons_of_mem a h1)
      · intro y hy
        rcases List.mem_cons.mp hy with h1 | h1
        · rw [h1]; omega
        · exact hmax y h1
      · intro y hy hky
        rcases List.mem_cons.mp hy with h1 | h1
        · rw [h1] at hky; omega
        · exact htie y h1 hky
    · -- the accumulator stays `x`
      rw [if_neg hk]
      have hpacc : (x :: l).Pairwise (· ≤ ·) := by
        refine List.pairwise_cons.mpr ⟨?_, hl⟩
        intro y hy; exact hx y (List.mem_cons_of_mem a hy)
      obtain ⟨hmem, hmax, htie⟩ := ih x hpacc
      have hkax : k a ≤ k x := not_lt.mp hk
      have hkx : k x ≤ k (l.foldl (fun b c => if k b < k c then c else b) x) :=
        hmax x (List.mem_cons_self x l)
      refine ⟨?_, ?_, ?_⟩
      · rcases List.mem_cons.mp hmem with h1 | h1
        · rw [h1]; exact List.mem_cons_self x (a :: l)
        · exact List.mem_cons_of_mem x (List.mem_cons_of_mem a h1)
      · intro y hy
        rcases List.mem_cons.mp hy with h1 | h1
        · rw [h1]; exact hkx
        rcases List.mem_cons.mp h1 with h2 | h2
        · rw [h2]; omega
        · exact hmax y (List.mem_cons_of_mem x h2)
      · intro y hy hky
        rcases List.mem_cons.mp hy with h1 | h1
        · rw [h1] at hky ⊢; exact htie x (List.mem_cons_self x l) hky
        rcases List.mem_cons.mp h1 with h2 | h2
        · rw [h2] at hky ⊢
          -- here the keys of `x`, `a` and the fold result all agree, so
          -- the tie-break result is at most `x`, and `x ≤ a`.
          have h3 : k x = k (l.foldl (fun b c => if k b < k c then c else b) x) := by
            omega
          exact le_trans (htie x (List.mem_cons_self x l) h3) hxa
        · exact htie y (List.mem_cons_of_mem x h2) hky

/-- `get_final_inf_res` on a nonempty list returns a label of the list
whose frequency is maximal, and which is the least among the labels tied
for that maximal frequency (Python's `max` over the set of labels scans
the distinct small-integer labels in ascending order and keeps the first
maximum). -/
lemma get_final_spec (infs : List Int) (h : infs ≠ []) :
    ∃ m, get_final_inf_res infs = some m ∧ m ∈ infs ∧
      (∀ y ∈ infs, infs.count y ≤ infs.count m) ∧
      (∀ y ∈ infs, infs.count y = infs.count m → m ≤ y) := by
  have hd : infs.dedup ≠ [] := by
    intro h0
    exact h ((List.dedup_eq_nil infs).mp h0)
  have hperm : List.Perm (set_asc infs) infs.dedup := List.perm_insertionSort _ _
  have hsorted : (set_asc infs).Pairwise (· ≤ ·) := List.sorted_insertionSort _ _
  have hne : set_asc infs ≠ [] := by
    intro h0
    rw [h0] at hperm
    exact hd (List.Perm.eq_nil hperm.symm)
  obtain ⟨x, xs, hxe⟩ := List.exists_cons_of_ne_nil hne
  have hmemiff : ∀ y : Int, y ∈ x :: xs ↔ y ∈ infs := by
    intro y
    rw [← hxe, hperm.mem_iff, List.mem_dedup]
  obtain ⟨hmem, hmax, htie⟩ :=
    foldl_pick_spec (fun v => infs.count v) xs x (hxe ▸ hsorted)
  refine ⟨xs.foldl (fun b a => if infs.count b < infs.count a then a else b) x, ?_, ?_, ?_, ?_⟩
  · rw [get_final_inf_res, hxe]; rfl
  · exact (hmemiff _).mp hmem
  · intro y hy; exact hmax y ((hmemiff y).mpr hy)
  · intro y hy hc; exact htie y ((hmemiff y).mpr hy) hc

/-- Claim C3 (counterexample): on labels `[2, 2, 1, 1]` the code returns
`1`, not `2`: both labels are tied at frequency 2 and `max(set(...))`
scans the distinct labels in set-iteration (ascending) order, so the tie
goes to `1`, not to the label appearing first in the reduced list. -/
theorem c3_tie_counterexample :
    get_final_inf_res [2, 2, 1, 1] = some 1 ∧ some (1 : Int) ≠ some 2 := by
  constructor
  · rfl
  · decide

/-- Claim C3 (amended): when the debounce decision fires, the most
frequent label of the reduced list is computed with this tie-break:
among labels tied for the highest frequency, the numerically smallest is
returned (the first one in the ascending set-iteration order that
Python's `max(set(infs), key=infs.count)` scans) — not the first one in
list order.  In particular, for labels `[2, 2, 1, 1]` the result is `1`. -/
theorem c3_tie_least_label :
    (∀ infs : List Int, infs ≠ [] →
      ∃ m, get_final_inf_res infs = some m ∧ m ∈ infs ∧
        (∀ y ∈ infs, infs.count y ≤ infs.count m) ∧
        (∀ y ∈ infs, infs.count y = infs.count m → m ≤ y)) ∧
    get_final_inf_res [2, 2, 1, 1] = some 1 := by
  exact ⟨get_final_spec, by rfl⟩

/-- Witness for C3's amended theorem at the concrete tied input. -/
theorem c3_tie_least_label_witness :
    ∃ m, get_final_inf_res [2, 2, 1, 1] = some m ∧ m ∈ ([2, 2, 1, 1] : List Int) ∧
      (∀ y ∈ ([2, 2, 1, 1] : List Int),
        ([2, 2, 1, 1] : List Int).count y ≤ ([2, 2, 1, 1] : List Int).count m) ∧
      (∀ y ∈ ([2, 2, 1, 1] : List Int),
        ([2, 2, 1, 1] : List Int).count y = ([2, 2, 1, 1] : List Int).count m → m ≤ y) :=
  c3_tie_least_label.1 [2, 2, 1, 1] (by decide)

/-- A produced majority vote is one of the input labels. -/
lemma get_final_mem {infs : List Int} {m : Int}
    (h : get_final_inf_res infs = some m) : m ∈ infs := by
  rcases List.eq_nil_or_concat infs with h0 | ⟨l0, b, h0⟩
  · rw [h0] at h
    simp [get_final_inf_res, set_asc, max_key, List.dedup_nil] at h
  · have hne : infs ≠ [] := by rw [h0]; simp
    obtain ⟨m0, hm0, hmem, _, _⟩ := get_final_spec infs hne
    rw [h] at hm0
    exact (Option.some_inj.mp hm0) ▸ hmem

/-- On a nonempty label list the majority vote always produces a label. -/
lemma get_final_isSome {infs : List Int} (h : infs ≠ []) :
    (get_final_inf_res infs).isSome := by
  obtain ⟨m, hm, _, _, _⟩ := get_final_spec infs h
  rw [hm]; rfl

/-- Cleaning an empty log yields an empty log in both branches. -/
lemma clean_nil (time_diff : Int) (max_tuples : Nat) (max_t_diff : Int) :
    clean_inf_tuples [] time_diff max_tuples max_t_diff = [] := by
  rw [clean_inf_tuples]
  split <;> rfl

/-- Claim C4 (part 1 helper is the theorem itself): debounce fires iff
the log holds at least `min_tuples` tuples and `time_diff` strictly
exceeds the threshold; and whenever `score` obtains a result, the whole
log is cleared before `score` returns. -/
theorem c4_debounce_fires_and_clears :
    (∀ (tuples : List (Nat × Int)) (td : Int) (mt : Nat) (mtd : Int), 1 ≤ mt →
      ((debounce tuples td mt mtd).isSome ↔ (mt ≤ tuples.length ∧ mtd < td))) ∧
    (∀ (classify : List ℚ → Int) (cfg : Config) (now : Nat) (s : TinyML) (r : Int),
      (∀ p ∈ s.inference_tuples, p.2 ∈ ([1, 2, 3] : List Int)) →
      (score classify cfg now s).1 = some r →
      (score classify cfg now s).2.inference_tuples = []) := by
  constructor
  · intro tuples td mt mtd hmt
    rw [debounce]
    constructor
    · intro hs
      by_contra hcond
      rw [if_neg hcond] at hs
      simp at hs
    · intro hcond
      obtain ⟨hc1, hc2⟩ := hcond
      rw [if_pos ⟨hc1, hc2⟩]
      apply get_final_isSome
      intro h0
      have h2 : (reduce_infs tuples mt).length = 0 := by rw [h0]; rfl
      rw [reduce_infs, List.length_map, List.length_take] at h2
      omega
  · intro classify cfg now s r hvalid hres
    -- labels in the post-recording log are still all valid
    have hvalid1 : ∀ p ∈ record_inference classify now s.capacity s.buffer
        s.inference_tuples, p.2 ∈ ([1, 2, 3] : List Int) := by
      intro p hp
      rw [record_inference] at hp
      split at hp
      · split at hp
        next hin =>
          rcases List.mem_append.mp hp with h1 | h1
          · exact hvalid p h1
          · rw [List.mem_singleton] at h1
            rw [h1]
            exact hin
        next => exact hvalid p hp
      · exact hvalid p hp
    -- the result is a label of the reduced prefix, hence valid
    dsimp only [score] at hres ⊢
    have hrmem : r ∈ reduce_infs
        (record_inference classify now s.capacity s.buffer s.inference_tuples)
        cfg.MIN_INF_TUPLES := by
      rw [debounce] at hres
      split at hres
      · exact get_final_mem hres
      · simp at hres
    have hrvalid : r ∈ ([1, 2, 3] : List Int) := by
      rw [reduce_infs] at hrmem
      obtain ⟨p, hp, hpr⟩ := List.mem_map.mp hrmem
      rw [← hpr]
      exact hvalid1 p (List.mem_of_mem_take hp)
    have hrne : r ≠ 0 := by
      intro h0
      rw [h0] at hrvalid
      exact absurd hrvalid (by decide)
    rw [hres]
    simp only [hrne, ne_eq, not_false_eq_true, if_true, ite_true]
    exact clean_nil _ _ _

/-- Witness for C4: a two-tuple log with matching labels, `min_tuples = 2`
and a qualifying `time_diff` makes the debounce step fire. -/
theorem c4_debounce_fires_and_clears_witness :
    (debounce [(0, 1), (600, 1)] 600 2 450).isSome :=
  (c4_debounce_fires_and_clears.1 [(0, 1), (600, 1)] 600 2 450 (by decide)).mpr
    (by constructor <;> decide)

/-- Claim C5: the classifier-recording step appends `(now, label)` exactly
when the buffer length equals the capacity exactly (a stricter check than
the eviction trigger's "greater than capacity") and the classifier label
is in the valid set `{1, 2, 3}`; in every other case the log is exactly
unchanged.  Moreover `score` never changes the buffer (or the shape
fields) of the instance. -/
theorem c5_classifier_record (classify : List ℚ → Int) (now : Nat) (cap : Nat)
    (buffer : List ℚ) (tuples : List (Nat × Int)) :
    (record_inference classify now cap buffer tuples =
        tuples ++ [(now, classify buffer)] ↔
      (buffer.length = cap ∧ classify buffer ∈ ([1, 2, 3] : List Int))) ∧
    (¬ (buffer.length = cap ∧ classify buffer ∈ ([1, 2, 3] : List Int)) →
      record_inference classify now cap buffer tuples = tuples) ∧
    (∀ (cfg : Config) (s : TinyML),
      (score classify cfg now s).2.buffer = s.buffer ∧
      (score classify cfg now s).2.capacity = s.capacity ∧
      (score classify cfg now s).2.n_signals = s.n_signals) := by
  have hlen : tuples ≠ tuples ++ [(now, classify buffer)] := by
    intro h0
    have := congrArg List.length h0
    simp at this
  refine ⟨⟨?_, ?_⟩, ?_, ?_⟩
  · intro happ
    rw [record_inference] at happ
    by_cases h1 : buffer.length = cap
    · rw [if_pos h1] at happ
      by_cases h2 : classify buffer ∈ ([1, 2, 3] : List Int)
      · exact ⟨h1, h2⟩
      · rw [if_neg h2] at happ
        exact absurd happ hlen
    · rw [if_neg h1] at happ
      exact absurd happ hlen
  · intro hcond
    rw [record_inference, if_pos hcond.1]
    exact if_pos hcond.2
  · intro hcond
    rw [record_inference]
    by_cases h1 : buffer.length = cap
    · rw [if_pos h1]
      rw [if_neg (fun h2 => hcond ⟨h1, h2⟩)]
    · exact if_neg h1
  · intro cfg s
    rw [score]
    exact ⟨rfl, rfl, rfl⟩

/-- Witness for C5: a classifier returning 2 on an exactly-full buffer of
capacity 5 records the tuple `(7, 2)`. -/
theorem c5_classifier_record_witness :
    record_inference (fun _ => 2) 7 5 [1, 2, 3, 4, 5] [] = [(7, 2)] :=
  (c5_classifier_record (fun _ => 2) 7 5 [1, 2, 3, 4, 5] []).1.mpr
    (by constructor <;> decide)

/-- Claim C6: the cleanup step clears a nonempty log to empty iff the log
holds at most `clean_max_tuples` tuples and `time_diff` is at least
`clean_max_time_diff_ms`, and leaves the log exactly unchanged otherwise;
a log of 3 tuples with a qualifying `time_diff` under
`clean_max_tuples = 9` is cleared; and in a `score` cycle that produced
no debounce result, the final log is exactly the cleanup step applied to
the post-recording log. -/
theorem c6_cleanup_clears :
    (∀ (t : List (Nat × Int)) (td : Int) (mt : Nat) (mtd : Int), t ≠ [] →
      (clean_inf_tuples t td mt mtd = [] ↔ (t.length ≤ mt ∧ mtd ≤ td))) ∧
    (∀ (t : List (Nat × Int)) (td : Int) (mt : Nat) (mtd : Int),
      ¬ (t.length ≤ mt ∧ mtd ≤ td) → clean_inf_tuples t td mt mtd = t) ∧
    (∀ (t : List (Nat × Int)) (td mtd : Int), t.length = 3 → mtd ≤ td →
      clean_inf_tuples t td 9 mtd = []) ∧
    (∀ (classify : List ℚ → Int) (cfg : Config) (now : Nat) (s : TinyML),
      (score classify cfg now s).1 = none →
      (score classify cfg now s).2.inference_tuples =
        clean_inf_tuples
          (record_inference classify now s.capacity s.buffer s.inference_tuples)
          (get_time_diff
            (record_inference classify now s.capacity s.buffer s.inference_tuples))
          cfg.CLEAN_MAX_TUPLES cfg.CLEAN_MAX_TIME_DIFF) := by
  refine ⟨?_, ?_, ?_, ?_⟩
  · intro t td mt mtd hne
    rw [clean_inf_tuples]
    constructor
    · intro h0
      by_contra hcond
      rw [if_neg hcond] at h0
      exact hne h0
    · intro hcond
      exact if_pos hcond
  · intro t td mt mtd hcond
    rw [clean_inf_tuples]
    exact if_neg hcond
  · intro t td mtd h3 htd
    rw [clean_inf_tuples]
    refine if_pos ⟨by omega, htd⟩
  · intro classify cfg now s hres
    dsimp only [score] at hres ⊢
    rw [hres]

/-- Witness for C6: three early tuples with a large `time_diff` are
cleared under the default `clean_max_tuples = 9`. -/
theorem c6_cleanup_clears_witness :
    clean_inf_tuples [(0, 1), (10, 2), (20, 3)] 2000 9 2000 = [] :=
  c6_cleanup_clears.2.2.1 [(0, 1), (10, 2), (20, 3)] 2000 2000 (by decide) (by decide)

/-! ## `get_rms` -/

/-- Error raised by the embedded Python code. -/
inductive PyErr where
  | zeroDivision
  | emptyInput
deriving DecidableEq, Repr

/-- The Python slice `[0::3]`: every third element, starting at index 0.
The stride 3 is hard-coded in `get_rms` (`self.buffer[signal:][0::3]`). -/
def slice_step3 : List ℚ → List ℚ
  | [] => []
  | [x] => [x]
  | [x, _] => [x]
  | x :: _ :: _ :: rest => x :: slice_step3 rest

/-- `TinyML.get_rms` up to the square root: selects
`buffer[signal:][0::3]` and computes the mean of the squares
(`sum([pow(x,2) for x in vals]) / len(vals)`); the returned RMS is the
real square root of this rational.  With an empty selection the code
divides by `len(vals) = 0`, which in Python raises `ZeroDivisionError`
(modelled as `Except.error PyErr.zeroDivision`) — there is no empty-input
check. -/
def get_rms_sq (buffer : List ℚ) (signal : Nat) : Except PyErr ℚ :=
  let vals := slice_step3 (buffer.drop signal)
  if vals.length = 0 then Except.error PyErr.zeroDivision
  else Except.ok ((vals.map (fun x => x ^ 2)).sum / (vals.length : ℚ))

/-- Claim C7 (counterexample): on an empty selection `get_rms` does not
fail with a defined "empty input" condition — it performs the division
by zero (`ZeroDivisionError`). -/
theorem c7_empty_rms_zero_division :
    get_rms_sq [] 0 = Except.error PyErr.zeroDivision ∧
    Except.error (ε := PyErr) (α := ℚ) PyErr.zeroDivision ≠
      Except.error PyErr.emptyInput := by
  constructor
  · rfl
  · intro h
    exact PyErr.noConfusion (Except.error.inj h)

/-- Claim C7 (amended): over the two selected samples `[3, 4]` the mean
square is `(9 + 16) / 2 = 25/2`, so the RMS `sqrt(25/2)` lies strictly
between `3.5355` and `3.5356`; an empty selection raises a division by
zero rather than a defined empty-input error. -/
theorem c7_rms_values :
    get_rms_sq [3, 9, 9, 4] 0 = Except.ok (25 / 2) ∧
    ((35355 : ℚ) / 10000) ^ 2 < 25 / 2 ∧
    (25 : ℚ) / 2 < ((35356 : ℚ) / 10000) ^ 2 ∧
    get_rms_sq [] 0 = Except.error PyErr.zeroDivision := by
  refine ⟨?_, by norm_num, by norm_num, by rfl⟩
  rw [get_rms_sq]
  norm_num [slice_step3]

/-! ## Timestamp wraparound -/

/-- Claim C9: `time_diff` is 0 when fewer than two tuples exist, and for
a log whose oldest timestamp is `a mod 2^30` and newest timestamp is
`(a + d) mod 2^30` with elapsed time `d < 2^29` ticks, it equals exactly
`d` — the small non-negative modular difference — even when the newest
raw tick value is numerically smaller than the oldest because the tick
counter wrapped. -/
theorem c9_time_diff_wraparound :
    (∀ t : List (Nat × Int), t.length < 2 → get_time_diff t = 0) ∧
    (∀ (a d : Nat) (l1 l2 : Int) (mid : List (Nat × Int)), d < 2 ^ 29 →
      get_time_diff ((a % 2 ^ 30, l1) :: (mid ++ [((a + d) % 2 ^ 30, l2)])) =
        (d : Int)) := by
  constructor
  · intro t ht
    rw [get_time_diff, if_neg (by omega)]
  · intro a d l1 l2 mid hd
    have hlen : 2 ≤ ((a % 2 ^ 30, l1) :: (mid ++ [((a + d) % 2 ^ 30, l2)])).length := by
      simp
    rw [get_time_diff, if_pos hlen]
    have hhead : ((a % 2 ^ 30, l1) :: (mid ++ [((a + d) % 2 ^ 30, l2)])).head?.getD (0, 0)
        = (a % 2 ^ 30, l1) := rfl
    have hlast : ((a % 2 ^ 30, l1) :: (mid ++ [((a + d) % 2 ^ 30, l2)])).getLast?.getD (0, 0)
        = ((a + d) % 2 ^ 30, l2) := by
      have h1 : ((a % 2 ^ 30, l1) :: (mid ++ [((a + d) % 2 ^ 30, l2)]))
          = ((a % 2 ^ 30, l1) :: mid) ++ [((a + d) % 2 ^ 30, l2)] := by simp
      rw [h1, List.getLast?_concat]
      rfl
    rw [hhead, hlast]
    rw [ticks_diff, TICKS_PERIOD]
    have hcast : (((a + d) % 2 ^ 30 : Nat) : Int) = ((a : Int) + (d : Int)) % 2 ^ 30 := by
      push_cast
      rfl
    have hcast2 : ((a % 2 ^ 30 : Nat) : Int) = (a : Int) % 2 ^ 30 := by
      push_cast
      rfl
    rw [hcast, hcast2]
    omega

/-- Witness for C9: a log whose first tick is 100 before the wrap point
and whose second tick is 50 after it reports a duration of 150 ms. -/
theorem c9_time_diff_wraparound_witness :
    get_time_diff ((1073741724 % 2 ^ 30, 1) :: ([] ++ [((1073741724 + 150) % 2 ^ 30, 2)]))
      = (150 : Int) :=
  c9_time_diff_wraparound.2 1073741724 150 1 2 [] (by norm_num)

/-! ## Config defaults -/

/-- Claim C10: `update_config` with omitted arguments writes back the
class-definition-time defaults (450, 9, 9, 2000), because Python
evaluates default arguments once at function definition; the written
values never depend on the live config, so earlier `update_config` calls
are irrelevant.  (Class-level sharing is modelled by the single `Config`
value threaded into `score`.) -/
theorem c10_update_config_defaults :
    (∀ prior : Config, update_config none none none none prior = ⟨450, 9, 9, 2000⟩) ∧
    (∀ (t : Option Int) (m c : Option Nat) (d : Option Int) (p1 p2 : Config),
      update_config t m c d p1 = update_config t m c d p2) ∧
    (∀ (t : Option Int) (m c : Option Nat) (d : Option Int) (prior : Config),
      update_config none none none none (update_config t m c d prior) = configDefaults) ∧
    (∀ (t : Int) (prior : Config),
      update_config (some t) none none none prior = ⟨t, 9, 9, 2000⟩) := by
  refine ⟨fun prior => rfl, fun t m c d p1 p2 => rfl, fun t m c d prior => rfl,
    fun t prior => rfl⟩

end TinyMLSpec
